import Mathlib

/-
  Shallow embedding of the V1brate real-time pitch pipeline.

  Sources embedded (frontend/src):
  - utils/pitchDetection.ts : PitchDetector.detectPitch, frequencyToNote,
    noteToFrequency, getNoteDisplayName, convertAccidental, transposeNote
  - hooks/usePitchDetection.ts : the hook-local frequencyToNote and stop
  - components/widgets/StaffAnalyzerWidget.tsx : getNoteLeft, the cleanup
    filter, the note-append throttle and the tick-marker effect
  - types/index.ts : NOTE_NAMES_ABC, NOTE_NAMES_DOREMI_MAP

  Number model: JS doubles are modelled as real numbers; Date.now() values
  and beat counters as integers. JS percent on integers is truncated
  remainder, Int.tmod. Math.round(x) is floor(x + 1/2), which is exactly
  Mathlib round. Math.floor on reals is Int.floor.
-/

namespace V1brate

/-- The 12 pitch classes (types/index.ts, NOTE_NAMES_ABC). -/
def NOTE_NAMES_ABC : List String :=
  ["C", "C#", "D", "D#", "E", "F"] ++
    ["F#", "G", "G#", "A", "A#", "B"]

/-- DoReMi display names keyed by letter names, both sharp and flat spellings
(types/index.ts, NOTE_NAMES_DOREMI_MAP), as an association list in source
order. -/
def NOTE_NAMES_DOREMI_MAP : List (String × String) :=
  [("C", "Do"), ("C#", "Do#"), ("Db", "Reb"), ("D", "Re"), ("D#", "Re#"),
   ("Eb", "Mib"), ("E", "Mi"), ("F", "Fa"), ("F#", "Fa#"), ("Gb", "Solb"),
   ("G", "Sol"), ("G#", "Sol#"), ("Ab", "Lab"), ("A", "La"), ("A#", "La#"),
   ("Bb", "Tib"), ("B", "Ti")]

/-- Notation system preference (types/index.ts, NotationSystem). -/
inductive NotationSystem
  | ABC
  | DoReMi
deriving DecidableEq

/-- Accidental spelling preference (convertAccidental parameter). -/
inductive AccidentalSystem
  | sharp
  | flat
deriving DecidableEq

/-- JS Array.prototype.indexOf: index of the first occurrence, -1 when
absent. -/
def jsIndexOf (l : List String) (x : String) : ℤ :=
  match l.indexOf? x with
  | some i => (i : ℤ)
  | none => -1

/-- Result record of utils/pitchDetection.ts frequencyToNote. -/
structure NoteInfo where
  note : String
  octave : ℤ
  cents : ℤ
deriving DecidableEq, Repr

/-- Math.pow(2, 1 / 12), the equal-temperament semitone ratio
(pitchDetection.ts line 265). -/
noncomputable def semitoneRatio : ℝ := (2 : ℝ) ^ ((1 : ℝ) / 12)

/-- Semitone distance from A4 as computed by utils frequencyToNote
(line 268): Math.log(frequency / A4) / Math.log(semitoneRatio). -/
noncomputable def utilsSemitones (frequency A4 : ℝ) : ℝ :=
  Real.log (frequency / A4) / Real.log semitoneRatio

/-- The C-rebased pitch-class index of utils frequencyToNote (lines
274-278): noteIndex = round % 12, fixed into [0,12) when negative, then
(noteIndex + 9) % 12. JS percent is truncated remainder. -/
def utilsNoteIndex (n : ℤ) : ℤ :=
  let noteIndex := Int.tmod n 12
  let noteIndex := if noteIndex < 0 then noteIndex + 12 else noteIndex
  Int.tmod (noteIndex + 9) 12

/-- utils/pitchDetection.ts frequencyToNote (lines 256-288). -/
noncomputable def frequencyToNote (frequency : ℝ) (standardPitch : ℝ := 440) :
    NoteInfo :=
  let A4 := standardPitch
  let semitonesFromA4 := utilsSemitones frequency A4
  let octave := ⌊semitonesFromA4 / 12⌋ + 4
  let noteIndex := utilsNoteIndex (round semitonesFromA4)
  let note := NOTE_NAMES_ABC.getD noteIndex.toNat ""
  let cents := round ((semitonesFromA4 - (round semitonesFromA4 : ℤ)) * 100)
  ⟨note, octave, cents⟩

/-- utils/pitchDetection.ts noteToFrequency (lines 291-307): returns 0 when
the note name is not found in NOTE_NAMES_ABC. -/
noncomputable def noteToFrequency (note : String) (octave : ℤ)
    (standardPitch : ℝ := 440) : ℝ :=
  let noteIndex := jsIndexOf NOTE_NAMES_ABC note
  if noteIndex = -1 then 0
  else
    let A4 := standardPitch
    let semitonesFromA4 : ℤ := (octave - 4) * 12 + (noteIndex - 9)
    A4 * semitoneRatio ^ (semitonesFromA4 : ℝ)

/-- utils/pitchDetection.ts getNoteDisplayName (lines 310-320). The JS
fallback NOTE_NAMES_DOREMI_MAP[note] || note only triggers on a missing key
because every stored display name is a nonempty string. -/
def getNoteDisplayName (note : String) (notationSystem : NotationSystem) :
    String :=
  match notationSystem with
  | .ABC => note
  | .DoReMi => (NOTE_NAMES_DOREMI_MAP.lookup note).getD note

/-- The flat-to-sharp table of convertAccidental (lines 329-335). -/
def flatToSharp : List (String × String) :=
  [("Db", "C#"), ("Eb", "D#"), ("Gb", "F#"), ("Ab", "G#"), ("Bb", "A#")]

/-- The sharp-to-flat table of convertAccidental (lines 339-345). -/
def sharpToFlat : List (String × String) :=
  [("C#", "Db"), ("D#", "Eb"), ("F#", "Gb"), ("G#", "Ab"), ("A#", "Bb")]

/-- utils/pitchDetection.ts convertAccidental (lines 323-348). -/
def convertAccidental (note : String) (accidentalSystem : AccidentalSystem) :
    String :=
  match accidentalSystem with
  | .sharp => (flatToSharp.lookup note).getD note
  | .flat => (sharpToFlat.lookup note).getD note

/-- utils/pitchDetection.ts transposeNote (lines 351-367). -/
def transposeNote (note fromKey toKey : String) : String :=
  let fromIndex := jsIndexOf NOTE_NAMES_ABC fromKey
  let toIndex := jsIndexOf NOTE_NAMES_ABC toKey
  let noteIndex := jsIndexOf NOTE_NAMES_ABC note
  if fromIndex = -1 ∨ toIndex = -1 ∨ noteIndex = -1 then note
  else
    let transposition := toIndex - fromIndex
    let newNoteIndex := Int.tmod (noteIndex + transposition) 12
    let newNoteIndex :=
      if newNoteIndex < 0 then newNoteIndex + 12 else newNoteIndex
    NOTE_NAMES_ABC.getD newNoteIndex.toNat ""

/-- Note-name table local to the usePitchDetection hook (lines 40-53); it
spells sharps with the U+266F sign where the utils table uses the plain
number sign. -/
def hookNoteNames : List String :=
  ["C", "C♯", "D", "D♯", "E", "F", "F♯", "G", "G♯", "A", "A♯", "B"]

/-- The adjusted pitch-class index of the hook frequencyToNote (lines
57-58): (round % 12 + 9) % 12 with JS truncated remainder and no negativity
fix, so the result can be -2 or -1. -/
def hookAdjustedIndex (n : ℤ) : ℤ :=
  let noteIndex := Int.tmod n 12
  Int.tmod (noteIndex + 9) 12

/-- Result record of the hook frequencyToNote. The note field is an Option:
none models the JS undefined produced by indexing noteNames at a negative
position. -/
structure HookNoteInfo where
  note : Option String
  octave : ℤ
  cents : ℤ
deriving DecidableEq, Repr

/-- usePitchDetection.ts frequencyToNote (lines 33-72). The guard
(!frequency || frequency < 20) returns the empty note. The octave uses
floor((semitones + 9) / 12) + 4, unlike the utils version. -/
noncomputable def hookFrequencyToNote (frequency : ℝ) (standartPitch : ℝ) :
    HookNoteInfo :=
  if frequency = 0 ∨ frequency < 20 then ⟨some "", 0, 0⟩
  else
    let A4 := standartPitch
    let semitonesFromA4 := 12 * Real.logb 2 (frequency / A4)
    let octave := ⌊(semitonesFromA4 + 9) / 12⌋ + 4
    let adjustedNoteIndex := hookAdjustedIndex (round semitonesFromA4)
    let cents :=
      round ((semitonesFromA4 - (round semitonesFromA4 : ℤ)) * 100)
    let note :=
      if 0 ≤ adjustedNoteIndex then
        some (hookNoteNames.getD adjustedNoteIndex.toNat "")
      else none
    ⟨note, octave, cents⟩

/-- Root-mean-square of a sample buffer (PitchDetector.detectPitch lines
74-81): sqrt of (sum of squares / size). For an empty buffer JS computes
sqrt(0 / 0) = NaN; the caller below accounts for that. -/
noncomputable def rmsOf (buffer : List ℝ) : ℝ :=
  Real.sqrt ((buffer.map (fun v => v * v)).sum / buffer.length)

/-- One normalized-difference correlation value of the autocorrelation loop
(lines 88-94): 1 - (sum over i < maxSamples of |buffer[i] -
buffer[i + offset]|) / maxSamples. Indices stay in bounds because
i + offset < 2 * maxSamples <= size; getD 0 is the total-access embedding. -/
noncomputable def correlationAt (buffer : List ℝ) (maxSamples offset : ℕ) :
    ℝ :=
  1 - (∑ i ∈ Finset.range maxSamples,
        |buffer.getD i 0 - buffer.getD (i + offset) 0|) / maxSamples

open Classical in
/-- The best-correlation fold of detectPitch (lines 72-100): offsets run
from 1 to maxSamples - 1, the pair carries (bestCorrelation, bestOffset)
and starts at (0, -1); an offset is taken when its correlation strictly
exceeds the best so far. -/
noncomputable def bestCorrelation (buffer : List ℝ) (maxSamples : ℕ) :
    ℝ × ℤ :=
  (List.range' 1 (maxSamples - 1)).foldl
    (fun best offset =>
      let correlation := correlationAt buffer maxSamples offset
      if best.1 < correlation then (correlation, (offset : ℤ)) else best)
    (0, -1)

open Classical in
/-- PitchDetector.detectPitch (pitchDetection.ts lines 68-106). The RMS
gate compares rms < 0.01; in JS the comparison is false for the NaN rms of
an empty buffer, which the size check reproduces, and the empty
autocorrelation loop then leaves bestOffset = -1. -/
noncomputable def detectPitch (sampleRate : ℝ) (buffer : List ℝ) : ℝ :=
  let size := buffer.length
  let maxSamples := size / 2
  if size ≠ 0 ∧ rmsOf buffer < 0.01 then 0
  else
    let best := bestCorrelation buffer maxSamples
    if best.2 = -1 ∨ best.1 < 0.3 then 0
    else sampleRate / (best.2 : ℝ)

/-- StaffAnalyzerWidget.tsx getNoteLeft (lines 149-166): age-based
horizontal position, clamped into [leftEdge, rightEdge] = [10, 90]. -/
noncomputable def getNoteLeft (timeWindow noteTimestamp currentTime : ℝ) :
    ℝ :=
  let age := currentTime - noteTimestamp
  let maxAge := timeWindow * 1000
  let progress := age / maxAge
  let rightEdge : ℝ := 90
  let leftEdge : ℝ := 10
  let position := rightEdge - progress * (rightEdge - leftEdge)
  max leftEdge (min rightEdge position)

/-- A buffered event of the staff widget (NoteHistoryItem). Optional JS
fields isTick and isVisible are Bools (undefined reads as false), tickId is
an Option. Timestamps are Date.now() milliseconds, hence integers. -/
structure NoteHistoryItem where
  note : String
  freq : ℝ
  clarity : ℝ
  timestamp : ℤ
  isTick : Bool
  tickId : Option ℤ
  isVisible : Bool

/-- The periodic cleanup of the animate loop (lines 176-192): keep events
with now - timestamp < timeWindow * 1000, and keep the previous array
object when nothing was removed. -/
def cleanupNotes (timeWindow now : ℤ) (prev : List NoteHistoryItem) :
    List NoteHistoryItem :=
  let maxAge := timeWindow * 1000
  let filtered := prev.filter (fun note => now - note.timestamp < maxAge)
  if filtered.length ≠ prev.length then filtered else prev

/-- Mutable state of the staff widget relevant to buffer insertion: the
note list plus the three refs lastNoteTimeRef, lastTickTimeRef,
previousBeatRef (lines 56-60). -/
structure StaffState where
  latestNotes : List NoteHistoryItem
  lastNoteTime : ℤ
  lastTickTime : ℤ
  previousBeat : ℤ
deriving Inhabited

/-- Initial widget state: empty buffer, all refs 0. -/
def initialStaffState : StaffState := ⟨[], 0, 0, 0⟩

open Classical in
/-- StaffAnalyzerWidget getNote (lines 64-98): frequencyToNote, then the
accidental preference, then the notation preference, then append the
octave. The widget imports these helpers from utils/musicUtils, which per
the repository docs carries the same standardPitch-parameterized
implementations embedded above from utils/pitchDetection.ts. -/
noncomputable def getNote (frequency standartPitch : ℝ)
    (notationSystem : NotationSystem) (accidentalSystem : AccidentalSystem) :
    String :=
  if frequency = 0 ∨ frequency < 20 then ""
  else
    let info := frequencyToNote frequency standartPitch
    let displayNote := convertAccidental info.note accidentalSystem
    let finalDisplayNote := getNoteDisplayName displayNote notationSystem
    finalDisplayNote ++ toString info.octave

open Classical in
/-- One run of the note-append effect (lines 280-347) for a detection
result (frequency, clarity) at time now. A falsy or <= 50 Hz frequency
appends nothing; an arrival less than 100 ms after lastNoteTimeRef is
throttled; otherwise the note is appended with its visibility flag and
lastNoteTimeRef is updated. -/
noncomputable def pitchStep (frequency : Option ℝ) (clarity : ℝ) (now : ℤ)
    (minClarity standartPitch : ℝ) (notationSystem : NotationSystem)
    (accidentalSystem : AccidentalSystem) (s : StaffState) : StaffState :=
  match frequency with
  | none => s
  | some f =>
    if 50 < f then
      if now - s.lastNoteTime < 100 then s
      else
        let noteString := getNote f standartPitch notationSystem
          accidentalSystem
        if noteString ≠ "" then
          { s with
            lastNoteTime := now
            latestNotes := s.latestNotes ++
              [⟨noteString, f, clarity, now, false, none,
                if minClarity ≤ clarity then true else false⟩] }
        else s
    else s

/-- JS slice(-n) on arrays: the last n elements; slice(-0) is slice(0),
the whole array. -/
def jsSliceLast {α : Type} (n : ℕ) (l : List α) : List α :=
  if n = 0 then l else l.drop (l.length - n)

/-- The synthetic tick marker appended by the metronome effect (lines
362-370). -/
def tickEvent (now : ℤ) : NoteHistoryItem :=
  ⟨"", 0, 0, now, true, some now, true⟩

/-- One run of the tick-marker effect (lines 350-381): on a new positive
beat, previousBeatRef is updated and, unless a tick was accepted less than
50 ms ago, a tick is appended and the buffer truncated to the last
bufferSize entries; a stopped metronome resets previousBeatRef. -/
def tickStep (metronomeIsPlaying : Bool) (currentBeat now : ℤ)
    (bufferSize : ℕ) (s : StaffState) : StaffState :=
  if metronomeIsPlaying ∧ 0 < currentBeat then
    if currentBeat ≠ s.previousBeat then
      let s1 := { s with previousBeat := currentBeat }
      if 50 ≤ now - s1.lastTickTime then
        { s1 with
          lastTickTime := now
          latestNotes := jsSliceLast bufferSize (s1.latestNotes ++
            [tickEvent now]) }
      else s1
    else s
  else { s with previousBeat := 0 }

/-- The cleanup pass of the animate loop as a state step. -/
def cleanupStep (timeWindow now : ℤ) (s : StaffState) : StaffState :=
  { s with latestNotes := cleanupNotes timeWindow now s.latestNotes }

/-- clearHistory (lines 265-267). -/
def clearHistory (s : StaffState) : StaffState := { s with latestNotes := [] }

/-- States of the staff widget reachable from mount through the
detection-driven append effect, the tick effect, the periodic cleanup and
clearHistory (the modelled buffer mechanisms of the widget). -/
inductive StaffReachable : StaffState → Prop
  | init : StaffReachable initialStaffState
  | pitch (s : StaffState) (frequency : Option ℝ) (clarity : ℝ) (now : ℤ)
      (minClarity standartPitch : ℝ) (notationSystem : NotationSystem)
      (accidentalSystem : AccidentalSystem) :
      StaffReachable s →
      StaffReachable (pitchStep frequency clarity now minClarity
        standartPitch notationSystem accidentalSystem s)
  | tick (s : StaffState) (metronomeIsPlaying : Bool) (currentBeat now : ℤ)
      (bufferSize : ℕ) :
      StaffReachable s →
      StaffReachable (tickStep metronomeIsPlaying currentBeat now bufferSize
        s)
  | cleanup (s : StaffState) (timeWindow now : ℤ) :
      StaffReachable s → StaffReachable (cleanupStep timeWindow now s)
  | clear (s : StaffState) :
      StaffReachable s → StaffReachable (clearHistory s)

/-- State of an AudioContext as seen through its state property. -/
inductive AudioContextState
  | running
  | suspended
  | closed
deriving DecidableEq

/-- The result record of usePitchDetection (lines 5-11). -/
structure HookResult where
  frequency : Option ℝ
  clarity : ℝ
  note : String
  octave : ℤ
  cents : ℤ

/-- The reset result installed by stop (lines 283-289). -/
def emptyHookResult : HookResult := ⟨none, 0, "", 0, 0⟩

/-- The mutable refs and state of usePitchDetection (lines 23-30). Handles
are abstract ids; audioContext additionally carries its state. -/
structure HookState where
  isActive : Bool
  raf : Option ℕ
  stream : Option ℕ
  source : Option ℕ
  audioContext : Option AudioContextState
  analyser : Option ℕ
  result : HookResult

/-- Hook state at mount: everything inactive and null. -/
def initHookState : HookState :=
  ⟨false, none, none, none, none, none, emptyHookResult⟩

/-- usePitchDetection stop (lines 244-291). Each handle is cleaned behind
its own presence guard, exactly as in the source; in particular the
audioContext ref is assigned null inside the branch guarded by state !==
closed, the analyser ref is nulled unconditionally and the result is
reset. -/
def stop (s : HookState) : HookState :=
  let s := { s with isActive := false }
  let s := match s.raf with
    | some _ => { s with raf := none }
    | none => s
  let s := match s.stream with
    | some _ => { s with stream := none }
    | none => s
  let s := match s.source with
    | some _ => { s with source := none }
    | none => s
  let s := match s.audioContext with
    | some st => if st ≠ .closed then { s with audioContext := none } else s
    | none => s
  { s with analyser := none, result := emptyHookResult }

/-- Hook states reachable from mount through start (successful, no-op when
already active, or failing at any point of setup: before the stream, after
the stream, after creating the context, after creating the analyser, after
connecting the source), the frame loop re-arming the animation handle and
publishing results, and stop. A context held by the ref is never in the
closed state: start creates it running or suspended and resumes a
suspended one. -/
inductive HookReachable : HookState → Prop
  | init : HookReachable initHookState
  | startSuccess (s : HookState) (streamId sourceId analyserId rafId : ℕ)
      (ctx : AudioContextState) :
      HookReachable s → s.isActive = false → ctx ≠ .closed →
      HookReachable { s with
        isActive := true
        stream := some streamId
        audioContext := some ctx
        analyser := some analyserId
        source := some sourceId
        raf := some rafId }
  | startNoop (s : HookState) :
      HookReachable s → s.isActive = true → HookReachable s
  | startFailBeforeStream (s : HookState) :
      HookReachable s → HookReachable { s with isActive := false }
  | startFailAfterStream (s : HookState) (streamId : ℕ) :
      HookReachable s → s.isActive = false →
      HookReachable { s with stream := some streamId, isActive := false }
  | startFailAfterContext (s : HookState) (streamId : ℕ)
      (ctx : AudioContextState) :
      HookReachable s → s.isActive = false → ctx ≠ .closed →
      HookReachable { s with
        stream := some streamId
        audioContext := some ctx
        isActive := false }
  | startFailAfterAnalyser (s : HookState) (streamId analyserId : ℕ)
      (ctx : AudioContextState) :
      HookReachable s → s.isActive = false → ctx ≠ .closed →
      HookReachable { s with
        stream := some streamId
        audioContext := some ctx
        analyser := some analyserId
        isActive := false }
  | startFailAfterSource (s : HookState) (streamId analyserId sourceId : ℕ)
      (ctx : AudioContextState) :
      HookReachable s → s.isActive = false → ctx ≠ .closed →
      HookReachable { s with
        stream := some streamId
        audioContext := some ctx
        analyser := some analyserId
        source := some sourceId
        isActive := false }
  | frameRearm (s : HookState) (rafId : ℕ) :
      HookReachable s → HookReachable { s with raf := some rafId }
  | framePublish (s : HookState) (r : HookResult) :
      HookReachable s → HookReachable { s with result := r }
  | stopStep (s : HookState) :
      HookReachable s → HookReachable (stop s)

/-! Helper lemmas shared by several developments. -/

theorem round_mono_real {x y : ℝ} (h : x ≤ y) : round x ≤ round y := by
  rw [round_eq, round_eq]
  exact Int.floor_le_floor (by linarith)

theorem round_cents_bound (s : ℝ) :
    -50 ≤ round ((s - (round s : ℤ)) * 100) ∧
      round ((s - (round s : ℤ)) * 100) ≤ 50 := by
  have h := abs_sub_round s
  rw [abs_le] at h
  obtain ⟨h1, h2⟩ := h
  have hlo : (-50 : ℝ) ≤ (s - (round s : ℤ)) * 100 := by nlinarith
  have hhi : (s - (round s : ℤ)) * 100 ≤ 50 := by nlinarith
  have e1 : round ((-50 : ℝ)) = (-50 : ℤ) := by
    rw [show ((-50 : ℝ)) = (((-50 : ℤ) : ℝ)) by norm_num, round_intCast]
  have e2 : round ((50 : ℝ)) = (50 : ℤ) := by
    rw [show ((50 : ℝ)) = (((50 : ℤ) : ℝ)) by norm_num, round_intCast]
  constructor
  · have := round_mono_real hlo
    rwa [e1] at this
  · have := round_mono_real hhi
    rwa [e2] at this

theorem bestCorrelation_of_maxSamples_le_one (buffer : List ℝ)
    (maxSamples : ℕ) (h : maxSamples ≤ 1) :
    bestCorrelation buffer maxSamples = (0, -1) := by
  have : maxSamples - 1 = 0 := by omega
  unfold bestCorrelation
  rw [this]
  rfl

theorem detectPitch_zero_of_short (sampleRate : ℝ) (buffer : List ℝ)
    (h : buffer.length < 2) : detectPitch sampleRate buffer = 0 := by
  have hm : buffer.length / 2 = 0 := by omega
  have hb := bestCorrelation_of_maxSamples_le_one buffer (buffer.length / 2)
    (by omega)
  rw [hm] at hb
  unfold detectPitch
  by_cases hgate : buffer.length ≠ 0 ∧ rmsOf buffer < 0.01
  · simp [hgate]
  · simp [hgate, hm, hb]

/-! Claim theorems. -/

/-- C3: for every positive frequency and reference pitch, frequencyToNote
returns a cents value in the closed interval [-50, 50]. -/
theorem frequencyToNote_cents_in_range (frequency standardPitch : ℝ)
    (hf : 0 < frequency) (hsp : 0 < standardPitch) :
    -50 ≤ (frequencyToNote frequency standardPitch).cents ∧
      (frequencyToNote frequency standardPitch).cents ≤ 50 := by
  have : (frequencyToNote frequency standardPitch).cents =
      round ((utilsSemitones frequency standardPitch -
        (round (utilsSemitones frequency standardPitch) : ℤ)) * 100) := rfl
  rw [this]
  exact round_cents_bound _

/-- Witness for C3 at 440 Hz against reference 440. -/
theorem frequencyToNote_cents_in_range_witness :
    (0 : ℝ) < 440 ∧ (0 : ℝ) < 440 ∧
      (-50 ≤ (frequencyToNote 440 440).cents ∧
        (frequencyToNote 440 440).cents ≤ 50) :=
  ⟨by norm_num, by norm_num,
    frequencyToNote_cents_in_range 440 440 (by norm_num) (by norm_num)⟩

/-- C5: an all-zero sample buffer yields frequency 0, and for a nonempty
silent buffer the RMS gate value is below the 0.01 threshold, so the gate
short-circuits before any autocorrelation. -/
theorem detectPitch_silence (sampleRate : ℝ) (buffer : List ℝ)
    (h : ∀ x ∈ buffer, x = 0) :
    detectPitch sampleRate buffer = 0 ∧
      (buffer ≠ [] → rmsOf buffer < 0.01) := by
  have hsum : (buffer.map (fun v => v * v)).sum = 0 := by
    apply List.sum_eq_zero
    intro x hx
    obtain ⟨y, hy, rfl⟩ := List.mem_map.mp hx
    rw [h y hy]
    ring
  have hrms : rmsOf buffer = 0 := by
    unfold rmsOf
    rw [hsum]
    simp
  have hgate : buffer ≠ [] → rmsOf buffer < 0.01 := by
    intro _
    rw [hrms]
    norm_num
  refine ⟨?_, hgate⟩
  by_cases hb : buffer = []
  · exact detectPitch_zero_of_short sampleRate buffer (by simp [hb])
  · have hlen : buffer.length ≠ 0 := by
      simpa [List.length_eq_zero] using hb
    unfold detectPitch
    simp [hlen, hgate hb]

/-- Witness for C5 on a concrete four-sample silent buffer. -/
theorem detectPitch_silence_witness :
    (∀ x ∈ ([0, 0, 0, 0] : List ℝ), x = 0) ∧
      (detectPitch 44100 ([0, 0, 0, 0] : List ℝ) = 0 ∧
        (([0, 0, 0, 0] : List ℝ) ≠ [] →
          rmsOf ([0, 0, 0, 0] : List ℝ) < 0.01)) :=
  ⟨by intro x hx; simpa using hx,
    detectPitch_silence 44100 [0, 0, 0, 0]
      (by intro x hx; simpa using hx)⟩

/-- C10: a buffer with fewer than 2 samples produces no pitch: detectPitch
returns 0. -/
theorem detectPitch_short_buffer (sampleRate : ℝ) (buffer : List ℝ)
    (h : buffer.length < 2) : detectPitch sampleRate buffer = 0 :=
  detectPitch_zero_of_short sampleRate buffer h

/-- Witness for C10 on a concrete one-sample buffer. -/
theorem detectPitch_short_buffer_witness :
    ([(5 : ℝ)] : List ℝ).length < 2 ∧ detectPitch 44100 [(5 : ℝ)] = 0 :=
  ⟨by norm_num, detectPitch_short_buffer 44100 [(5 : ℝ)] (by norm_num)⟩

/-- C6: for a fixed event timestamp and positive time window, getNoteLeft
is non-increasing in the current time and always lies in [10, 90]. -/
theorem getNoteLeft_monotone_bounded (timeWindow ts t₁ t₂ : ℝ)
    (htw : 0 < timeWindow) (ht : t₁ ≤ t₂) :
    getNoteLeft timeWindow ts t₂ ≤ getNoteLeft timeWindow ts t₁ ∧
      10 ≤ getNoteLeft timeWindow ts t₁ ∧
      getNoteLeft timeWindow ts t₁ ≤ 90 := by
  have hma : 0 < timeWindow * 1000 := by positivity
  refine ⟨?_, ?_, ?_⟩
  · unfold getNoteLeft
    apply max_le_max le_rfl
    apply min_le_min le_rfl
    have hdiv : (t₁ - ts) / (timeWindow * 1000) ≤
        (t₂ - ts) / (timeWindow * 1000) :=
      (div_le_div_iff_of_pos_right hma).mpr (by linarith)
    nlinarith
  · exact le_max_left _ _
  · exact max_le (by norm_num) (min_le_left _ _)

/-- Witness for C6 with timeWindow 10 s, event at t = 0, times 3000 and
5000. -/
theorem getNoteLeft_monotone_bounded_witness :
    (0 : ℝ) < 10 ∧ (3000 : ℝ) ≤ 5000 ∧
      (getNoteLeft 10 0 5000 ≤ getNoteLeft 10 0 3000 ∧
        10 ≤ getNoteLeft 10 0 3000 ∧ getNoteLeft 10 0 3000 ≤ 90) :=
  ⟨by norm_num, by norm_num,
    getNoteLeft_monotone_bounded 10 0 3000 5000 (by norm_num) (by norm_num)⟩

theorem cleanupNotes_eq_filter (timeWindow now : ℤ)
    (l : List NoteHistoryItem) :
    cleanupNotes timeWindow now l =
      l.filter (fun note => now - note.timestamp < timeWindow * 1000) := by
  unfold cleanupNotes
  by_cases hlen :
      (l.filter
        (fun note => now - note.timestamp < timeWindow * 1000)).length ≠
        l.length
  · simp [hlen]
  · push_neg at hlen
    have hself := List.filter_length_eq_length.mp hlen
    have : l.filter (fun note => now - note.timestamp < timeWindow * 1000)
        = l := List.filter_eq_self.mpr hself
    simp [this]

/-- C7: the periodic age-based cleanup is idempotent: a second application
at the same time removes nothing further. -/
theorem cleanupNotes_idempotent (timeWindow now : ℤ)
    (prev : List NoteHistoryItem) :
    cleanupNotes timeWindow now (cleanupNotes timeWindow now prev) =
      cleanupNotes timeWindow now prev := by
  rw [cleanupNotes_eq_filter, cleanupNotes_eq_filter, List.filter_filter]
  simp

theorem jsIndexOf_eq_neg_one {l : List String} {x : String} (h : x ∉ l) :
    jsIndexOf l x = -1 := by
  unfold jsIndexOf
  have : List.indexOf? x l = none := by
    rw [List.indexOf?_eq_none_iff]
    intro y hy
    simp only [beq_iff_eq]
    intro hxy
    exact h (hxy ▸ hy)
  rw [this]

/-- C4 counterexample: the flat spelling Db is not one of the 12 recognized
pitch classes of NOTE_NAMES_ABC, yet convertAccidental rewrites it to C#
instead of returning it unchanged, and noteToFrequency maps it to the
number 0 rather than to the input. -/
theorem unrecognized_note_counterexample :
    "Db" ∉ NOTE_NAMES_ABC ∧
      convertAccidental "Db" AccidentalSystem.sharp = "C#" ∧
      noteToFrequency "Db" 4 440 = 0 := by
  refine ⟨by decide, by decide, ?_⟩
  have h : jsIndexOf NOTE_NAMES_ABC "Db" = -1 := by decide
  unfold noteToFrequency
  rw [h]
  simp

/-- C4 amended: for a note name outside every lookup table (not one of the
12 sharp-spelled pitch classes and not one of the five flat spellings),
convertAccidental, transposeNote and getNoteDisplayName return the input
unchanged, while noteToFrequency returns 0 as a safe sentinel; none of
them can throw. -/
theorem unrecognized_note_soft_behaviour (note : String) (octave : ℤ)
    (standardPitch : ℝ) (fromKey toKey : String) (acc : AccidentalSystem)
    (ns : NotationSystem) (h1 : note ∉ NOTE_NAMES_ABC)
    (h2 : note ∉ ["Db", "Eb", "Gb", "Ab", "Bb"]) :
    noteToFrequency note octave standardPitch = 0 ∧
      convertAccidental note acc = note ∧
      transposeNote note fromKey toKey = note ∧
      getNoteDisplayName note ns = note := by
  have hidx : jsIndexOf NOTE_NAMES_ABC note = -1 := jsIndexOf_eq_neg_one h1
  simp only [NOTE_NAMES_ABC, List.mem_append, List.mem_cons,
    List.not_mem_nil, or_false, not_or] at h1
  simp only [List.mem_cons, List.not_mem_nil, or_false, not_or] at h2
  obtain ⟨⟨hC, hCs, hD, hDs, hE, hF⟩, hFs, hG, hGs, hA, hAs, hB⟩ := h1
  obtain ⟨hDb, hEb, hGb, hAb, hBb⟩ := h2
  have bC : (note == "C") = false := beq_eq_false_iff_ne.mpr hC
  have bCs : (note == "C#") = false := beq_eq_false_iff_ne.mpr hCs
  have bD : (note == "D") = false := beq_eq_false_iff_ne.mpr hD
  have bDs : (note == "D#") = false := beq_eq_false_iff_ne.mpr hDs
  have bE : (note == "E") = false := beq_eq_false_iff_ne.mpr hE
  have bF : (note == "F") = false := beq_eq_false_iff_ne.mpr hF
  have bFs : (note == "F#") = false := beq_eq_false_iff_ne.mpr hFs
  have bG : (note == "G") = false := beq_eq_false_iff_ne.mpr hG
  have bGs : (note == "G#") = false := beq_eq_false_iff_ne.mpr hGs
  have bA : (note == "A") = false := beq_eq_false_iff_ne.mpr hA
  have bAs : (note == "A#") = false := beq_eq_false_iff_ne.mpr hAs
  have bB : (note == "B") = false := beq_eq_false_iff_ne.mpr hB
  have bDb : (note == "Db") = false := beq_eq_false_iff_ne.mpr hDb
  have bEb : (note == "Eb") = false := beq_eq_false_iff_ne.mpr hEb
  have bGb : (note == "Gb") = false := beq_eq_false_iff_ne.mpr hGb
  have bAb : (note == "Ab") = false := beq_eq_false_iff_ne.mpr hAb
  have bBb : (note == "Bb") = false := beq_eq_false_iff_ne.mpr hBb
  refine ⟨?_, ?_, ?_, ?_⟩
  · unfold noteToFrequency
    rw [hidx]
    simp
  · cases acc
    · simp [convertAccidental, flatToSharp, List.lookup, bDb, bEb, bGb,
        bAb, bBb]
    · simp [convertAccidental, sharpToFlat, List.lookup, bCs, bDs, bFs,
        bGs, bAs]
  · unfold transposeNote
    rw [hidx]
    simp
  · cases ns
    · rfl
    · simp [getNoteDisplayName, NOTE_NAMES_DOREMI_MAP, List.lookup, bC,
        bCs, bD, bDs, bE, bF, bFs, bG, bGs, bA, bAs, bB, bDb, bEb, bGb,
        bAb, bBb]

/-- Witness for the amended C4 at the unrecognized note name H. -/
theorem unrecognized_note_soft_behaviour_witness :
    "H" ∉ NOTE_NAMES_ABC ∧ "H" ∉ (["Db", "Eb", "Gb", "Ab", "Bb"] : List String) ∧
      (noteToFrequency "H" 4 440 = 0 ∧
        convertAccidental "H" AccidentalSystem.sharp = "H" ∧
        transposeNote "H" "C" "D" = "H" ∧
        getNoteDisplayName "H" NotationSystem.DoReMi = "H") :=
  ⟨by decide, by decide,
    unrecognized_note_soft_behaviour "H" 4 440 "C" "D"
      AccidentalSystem.sharp NotationSystem.DoReMi (by decide) (by decide)⟩

/-! Arithmetic helpers for the JS truncated remainder and the semitone
computations. -/

theorem int_neg_tmod (a b : ℤ) : Int.tmod (-a) b = -Int.tmod a b := by
  rw [Int.tmod_def, Int.tmod_def, Int.neg_tdiv]
  ring

theorem tmod_twelve_lb (n : ℤ) : -12 < Int.tmod n 12 := by
  rcases le_or_lt 0 n with hn | hn
  · have := Int.tmod_nonneg 12 hn
    omega
  · have h1 : Int.tmod (-n) 12 < 12 := Int.tmod_lt_of_pos _ (by norm_num)
    have h2 : Int.tmod (-n) 12 = -Int.tmod n 12 := int_neg_tmod n 12
    omega

theorem tmod_twelve_ub (n : ℤ) : Int.tmod n 12 < 12 :=
  Int.tmod_lt_of_pos n (by norm_num)

theorem utilsNoteIndex_nonneg (n : ℤ) : 0 ≤ utilsNoteIndex n := by
  unfold utilsNoteIndex
  have hlb := tmod_twelve_lb n
  by_cases hneg : Int.tmod n 12 < 0
  · simp only [if_pos hneg]
    exact Int.tmod_nonneg 12 (by omega)
  · simp only [if_neg hneg]
    exact Int.tmod_nonneg 12 (by omega)

theorem hook_utils_index_agree (n : ℤ) (h : -9 ≤ Int.tmod n 12) :
    hookAdjustedIndex n = utilsNoteIndex n := by
  unfold hookAdjustedIndex utilsNoteIndex
  have hub := tmod_twelve_ub n
  by_cases hneg : Int.tmod n 12 < 0
  · simp only [if_pos hneg]
    have e1 : Int.tmod (Int.tmod n 12 + 12 + 9) 12 =
        (Int.tmod n 12 + 12 + 9) % 12 :=
      Int.tmod_eq_emod (by omega) (by norm_num)
    have e2 : Int.tmod (Int.tmod n 12 + 9) 12 =
        (Int.tmod n 12 + 9) % 12 :=
      Int.tmod_eq_emod (by omega) (by norm_num)
    rw [e1, e2]
    omega
  · simp only [if_neg hneg]

theorem hookAdjustedIndex_neg_of_low (n : ℤ) (h : Int.tmod n 12 < -9) :
    hookAdjustedIndex n < 0 := by
  unfold hookAdjustedIndex
  have hlb := tmod_twelve_lb n
  have e : Int.tmod (Int.tmod n 12 + 9) 12 =
      -Int.tmod (-(Int.tmod n 12 + 9)) 12 := by
    rw [int_neg_tmod]
    ring
  rw [e]
  have e2 : Int.tmod (-(Int.tmod n 12 + 9)) 12 =
      (-(Int.tmod n 12 + 9)) % 12 :=
    Int.tmod_eq_emod (by omega) (by norm_num)
  rw [e2]
  omega

theorem floor_add_nine_div_twelve (s : ℝ) :
    ⌊(s + 9) / 12⌋ = ⌊s / 12⌋ +
      (if (3 : ℝ) ≤ s - 12 * (⌊s / 12⌋ : ℤ) then 1 else 0) := by
  have h1 : ((⌊s / 12⌋ : ℤ) : ℝ) ≤ s / 12 := Int.floor_le _
  have h2 : s / 12 < (⌊s / 12⌋ : ℤ) + 1 := Int.lt_floor_add_one _
  have h1x : 12 * ((⌊s / 12⌋ : ℤ) : ℝ) ≤ s := by linarith
  have h2x : s < 12 * ((⌊s / 12⌋ : ℤ) : ℝ) + 12 := by linarith
  by_cases hc : (3 : ℝ) ≤ s - 12 * (⌊s / 12⌋ : ℤ)
  · rw [if_pos hc, Int.floor_eq_iff]
    push_cast
    constructor <;> linarith
  · rw [if_neg hc, add_zero, Int.floor_eq_iff]
    constructor <;> linarith

theorem semitoneRatio_pos : (0 : ℝ) < semitoneRatio :=
  Real.rpow_pos_of_pos (by norm_num) _

theorem semitoneRatio_one_le : (1 : ℝ) ≤ semitoneRatio := by
  have h := Real.rpow_le_rpow_of_exponent_le (x := (2 : ℝ))
    (by norm_num) (show (0 : ℝ) ≤ 1 / 12 by norm_num)
  rwa [Real.rpow_zero] at h

theorem log_semitoneRatio : Real.log semitoneRatio = 1 / 12 * Real.log 2 := by
  unfold semitoneRatio
  exact Real.log_rpow (by norm_num) _

theorem log_semitoneRatio_ne : Real.log semitoneRatio ≠ 0 := by
  rw [log_semitoneRatio]
  have : 0 < Real.log 2 := Real.log_pos one_lt_two
  positivity

theorem utilsSemitones_eq_logb (frequency A4 : ℝ) :
    utilsSemitones frequency A4 = 12 * Real.logb 2 (frequency / A4) := by
  unfold utilsSemitones
  rw [log_semitoneRatio, Real.logb]
  have h2 : Real.log 2 ≠ 0 := ne_of_gt (Real.log_pos one_lt_two)
  field_simp
  ring

theorem utilsSemitones_of_pow (A4 : ℝ) (hA : A4 ≠ 0) (t : ℝ) :
    utilsSemitones (A4 * semitoneRatio ^ t) A4 = t := by
  unfold utilsSemitones
  rw [mul_div_cancel_left₀ _ hA,
    Real.log_rpow semitoneRatio_pos, mul_div_assoc,
    div_self log_semitoneRatio_ne, mul_one]

/-- C1: evaluating the round trip at the failing input (note C, octave 4,
reference 440): noteToFrequency places C4 nine semitones below A4, but
frequencyToNote maps that frequency back to note C in octave 3 with cents
0, dropping the octave by one. -/
theorem roundTrip_at_C4_drops_octave :
    frequencyToNote (noteToFrequency "C" 4 440) 440 =
      ⟨"C", 3, 0⟩ := by
  have hidx : jsIndexOf NOTE_NAMES_ABC "C" = 0 := by decide
  have hval : noteToFrequency "C" 4 440 =
      440 * semitoneRatio ^ ((-9 : ℝ)) := by
    unfold noteToFrequency
    rw [hidx]
    norm_num
  have hs : utilsSemitones (440 * semitoneRatio ^ ((-9 : ℝ))) 440 = -9 :=
    utilsSemitones_of_pow 440 (by norm_num) (-9)
  have hround : round ((-9 : ℝ)) = (-9 : ℤ) := by
    rw [show ((-9 : ℝ)) = (((-9 : ℤ) : ℝ)) by norm_num, round_intCast]
  have hfloor : ⌊(-9 : ℝ) / 12⌋ = -1 := by
    rw [Int.floor_eq_iff]
    constructor <;> norm_num
  have hnidx : utilsNoteIndex (-9) = 0 := by decide
  rw [hval]
  unfold frequencyToNote
  simp only [hs, hround, hnidx, hfloor]
  norm_num
  rfl

/-- C2 counterexample: at the frequency three semitones above A4 (the C
above A4, about 523 Hz at reference 440) the utils frequencyToNote reports
octave 4 while the hook frequencyToNote reports octave 5, so the two
implementations do not agree. -/
theorem hook_utils_octave_disagree :
    (frequencyToNote (440 * semitoneRatio ^ ((3 : ℝ))) 440).octave = 4 ∧
      (hookFrequencyToNote (440 * semitoneRatio ^ ((3 : ℝ))) 440).octave =
        5 := by
  have hs : utilsSemitones (440 * semitoneRatio ^ ((3 : ℝ))) 440 = 3 :=
    utilsSemitones_of_pow 440 (by norm_num) 3
  have hpow1 : (1 : ℝ) ≤ semitoneRatio ^ ((3 : ℝ)) := by
    have h := Real.rpow_le_rpow_of_exponent_le semitoneRatio_one_le
      (show (0 : ℝ) ≤ 3 by norm_num)
    rwa [Real.rpow_zero] at h
  have hguard : ¬(440 * semitoneRatio ^ ((3 : ℝ)) = 0 ∨
      440 * semitoneRatio ^ ((3 : ℝ)) < 20) := by
    push_neg
    constructor <;> nlinarith
  have hlogb : 12 * Real.logb 2 (440 * semitoneRatio ^ ((3 : ℝ)) / 440) =
      3 := by
    rw [← utilsSemitones_eq_logb]
    exact hs
  constructor
  · unfold frequencyToNote
    simp only [hs]
    have hfloor : ⌊(3 : ℝ) / 12⌋ = 0 := by
      rw [Int.floor_eq_iff]
      constructor <;> norm_num
    rw [hfloor]
    norm_num
  · unfold hookFrequencyToNote
    rw [if_neg hguard]
    simp only [hlogb]
    have hfloor : ⌊((3 : ℝ) + 9) / 12⌋ = 1 := by
      rw [Int.floor_eq_iff]
      constructor <;> norm_num
    rw [hfloor]
    norm_num

/-- C2 amended: for frequencies of at least 20 Hz the two implementations
compute the same semitone value, hence equal cents; the hook octave equals
the utils octave plus one exactly when the position within the utils
octave is three or more semitones (pitch classes C through G♯) and equals
it otherwise; both read their note name at the same table index whenever
the hook index is in range (JS remainder of the rounded semitone count at
least -9), while for remainders -11 and -10 the hook indexes its table out
of bounds and yields an undefined note. -/
theorem hook_matches_utils_up_to_octave (f A4 : ℝ) (hf : 20 ≤ f) :
    (hookFrequencyToNote f A4).cents = (frequencyToNote f A4).cents ∧
      (hookFrequencyToNote f A4).octave = (frequencyToNote f A4).octave +
        (if (3 : ℝ) ≤ utilsSemitones f A4 -
            12 * (⌊utilsSemitones f A4 / 12⌋ : ℤ) then 1 else 0) ∧
      (frequencyToNote f A4).note =
        NOTE_NAMES_ABC.getD
          (utilsNoteIndex (round (utilsSemitones f A4))).toNat "" ∧
      (-9 ≤ Int.tmod (round (utilsSemitones f A4)) 12 →
        (hookFrequencyToNote f A4).note =
          some (hookNoteNames.getD
            (utilsNoteIndex (round (utilsSemitones f A4))).toNat "")) ∧
      (Int.tmod (round (utilsSemitones f A4)) 12 < -9 →
        (hookFrequencyToNote f A4).note = none) := by
  have hguard : ¬(f = 0 ∨ f < 20) := by
    push_neg
    constructor <;> nlinarith
  have hsem : 12 * Real.logb 2 (f / A4) = utilsSemitones f A4 :=
    (utilsSemitones_eq_logb f A4).symm
  refine ⟨?_, ?_, rfl, ?_, ?_⟩
  · unfold hookFrequencyToNote frequencyToNote
    rw [if_neg hguard]
    simp only [hsem]
  · unfold hookFrequencyToNote frequencyToNote
    rw [if_neg hguard]
    simp only [hsem]
    rw [floor_add_nine_div_twelve]
    ring
  · intro h
    unfold hookFrequencyToNote
    rw [if_neg hguard]
    simp only [hsem]
    rw [if_pos, hook_utils_index_agree _ h]
    rw [hook_utils_index_agree _ h]
    exact utilsNoteIndex_nonneg _
  · intro h
    unfold hookFrequencyToNote
    rw [if_neg hguard]
    simp only [hsem]
    rw [if_neg]
    exact not_le.mpr (hookAdjustedIndex_neg_of_low _ h)

/-- Witness for the amended C2 at 440 Hz against reference 440. -/
theorem hook_matches_utils_up_to_octave_witness :
    (20 : ℝ) ≤ 440 ∧
      ((hookFrequencyToNote 440 440).cents =
          (frequencyToNote 440 440).cents ∧
        (hookFrequencyToNote 440 440).octave =
          (frequencyToNote 440 440).octave +
            (if (3 : ℝ) ≤ utilsSemitones 440 440 -
                12 * (⌊utilsSemitones 440 440 / 12⌋ : ℤ) then 1 else 0) ∧
        (frequencyToNote 440 440).note =
          NOTE_NAMES_ABC.getD
            (utilsNoteIndex (round (utilsSemitones 440 440))).toNat "" ∧
        (-9 ≤ Int.tmod (round (utilsSemitones 440 440)) 12 →
          (hookFrequencyToNote 440 440).note =
            some (hookNoteNames.getD
              (utilsNoteIndex (round (utilsSemitones 440 440))).toNat "")) ∧
        (Int.tmod (round (utilsSemitones 440 440)) 12 < -9 →
          (hookFrequencyToNote 440 440).note = none)) :=
  ⟨by norm_num, hook_matches_utils_up_to_octave 440 440 (by norm_num)⟩

theorem pitchStep_none (clarity : ℝ) (now : ℤ) (mc sp : ℝ)
    (ns : NotationSystem) (acc : AccidentalSystem) (s : StaffState) :
    pitchStep none clarity now mc sp ns acc s = s := rfl

theorem pitchStep_not_high (f clarity : ℝ) (now : ℤ) (mc sp : ℝ)
    (ns : NotationSystem) (acc : AccidentalSystem) (s : StaffState)
    (h : ¬(50 : ℝ) < f) :
    pitchStep (some f) clarity now mc sp ns acc s = s := by
  simp only [pitchStep]
  rw [if_neg h]

theorem pitchStep_throttled (f clarity : ℝ) (now : ℤ) (mc sp : ℝ)
    (ns : NotationSystem) (acc : AccidentalSystem) (s : StaffState)
    (h50 : (50 : ℝ) < f) (hthr : now - s.lastNoteTime < 100) :
    pitchStep (some f) clarity now mc sp ns acc s = s := by
  simp only [pitchStep]
  rw [if_pos h50, if_pos hthr]

theorem pitchStep_accept (f clarity : ℝ) (now : ℤ) (mc sp : ℝ)
    (ns : NotationSystem) (acc : AccidentalSystem) (s : StaffState)
    (h50 : (50 : ℝ) < f) (hthr : ¬now - s.lastNoteTime < 100)
    (hns : getNote f sp ns acc ≠ "") :
    pitchStep (some f) clarity now mc sp ns acc s =
      { s with
        lastNoteTime := now
        latestNotes := s.latestNotes ++
          [⟨getNote f sp ns acc, f, clarity, now, false, none,
            if mc ≤ clarity then true else false⟩] } := by
  simp only [pitchStep]
  rw [if_pos h50, if_neg hthr, if_pos hns]

theorem pitchStep_empty_note (f clarity : ℝ) (now : ℤ) (mc sp : ℝ)
    (ns : NotationSystem) (acc : AccidentalSystem) (s : StaffState)
    (h50 : (50 : ℝ) < f) (hthr : ¬now - s.lastNoteTime < 100)
    (hns : ¬getNote f sp ns acc ≠ "") :
    pitchStep (some f) clarity now mc sp ns acc s = s := by
  simp only [pitchStep]
  rw [if_pos h50, if_neg hthr, if_neg hns]

theorem tickStep_accept (beat now : ℤ) (bs : ℕ) (s : StaffState)
    (hbeat : 0 < beat) (hneq : beat ≠ s.previousBeat)
    (hgap : 50 ≤ now - s.lastTickTime) :
    tickStep true beat now bs s =
      { s with
        previousBeat := beat
        lastTickTime := now
        latestNotes := jsSliceLast bs (s.latestNotes ++ [tickEvent now]) }
    := by
  simp only [tickStep]
  rw [if_pos ⟨by trivial, hbeat⟩, if_pos hneq, if_pos hgap]

theorem tickStep_deduped (beat now : ℤ) (bs : ℕ) (s : StaffState)
    (hbeat : 0 < beat) (hneq : beat ≠ s.previousBeat)
    (hgap : ¬50 ≤ now - s.lastTickTime) :
    tickStep true beat now bs s = { s with previousBeat := beat } := by
  simp only [tickStep]
  rw [if_pos ⟨by trivial, hbeat⟩, if_pos hneq, if_neg hgap]

theorem tickStep_same_beat (mp : Bool) (beat now : ℤ) (bs : ℕ)
    (s : StaffState) (hmp : mp = true ∧ 0 < beat)
    (hneq : ¬beat ≠ s.previousBeat) :
    tickStep mp beat now bs s = s := by
  simp only [tickStep]
  rw [if_pos hmp, if_neg hneq]

theorem tickStep_inactive (mp : Bool) (beat now : ℤ) (bs : ℕ)
    (s : StaffState) (hmp : ¬(mp = true ∧ 0 < beat)) :
    tickStep mp beat now bs s = { s with previousBeat := 0 } := by
  simp only [tickStep]
  rw [if_neg hmp]

theorem jsSliceLast_sublist {α : Type} (n : ℕ) (l : List α) :
    List.Sublist (jsSliceLast n l) l := by
  unfold jsSliceLast
  by_cases h : n = 0
  · rw [if_pos h]
  · rw [if_neg h]
    exact List.drop_sublist _ _

theorem staff_invariant (s : StaffState) (h : StaffReachable s) :
    (s.latestNotes.filter (fun e => !e.isTick)).Pairwise
      (fun a b => a.timestamp + 100 ≤ b.timestamp) ∧
      ∀ e ∈ s.latestNotes, e.isTick = false →
        e.timestamp ≤ s.lastNoteTime := by
  induction h with
  | init => simp [initialStaffState]
  | pitch s f c now mc sp ns acc _ ih =>
    obtain ⟨ih1, ih2⟩ := ih
    cases f with
    | none =>
      rw [pitchStep_none]
      exact ⟨ih1, ih2⟩
    | some freq =>
      by_cases h50 : (50 : ℝ) < freq
      · by_cases hthr : now - s.lastNoteTime < 100
        · rw [pitchStep_throttled freq c now mc sp ns acc s h50 hthr]
          exact ⟨ih1, ih2⟩
        · by_cases hns : getNote freq sp ns acc ≠ ""
          · rw [pitchStep_accept freq c now mc sp ns acc s h50 hthr hns]
            dsimp only
            constructor
            · rw [List.filter_append, List.pairwise_append]
              refine ⟨ih1, by simp, ?_⟩
              intro a ha b hb
              rw [List.mem_filter] at ha
              have ha2 : a.isTick = false := by simpa using ha.2
              have hts := ih2 a ha.1 ha2
              have hbe : b ∈
                  [(⟨getNote freq sp ns acc, freq, c, now, false, none,
                    if mc ≤ c then true else false⟩ : NoteHistoryItem)] :=
                List.mem_of_mem_filter hb
              rw [List.mem_singleton] at hbe
              subst hbe
              dsimp only
              omega
            · intro e he hef
              rw [List.mem_append, List.mem_singleton] at he
              rcases he with he | rfl
              · have := ih2 e he hef
                omega
              · dsimp only
                omega
          · rw [pitchStep_empty_note freq c now mc sp ns acc s h50 hthr
              hns]
            exact ⟨ih1, ih2⟩
      · rw [pitchStep_not_high freq c now mc sp ns acc s h50]
        exact ⟨ih1, ih2⟩
  | tick s mp beat now bs _ ih =>
    obtain ⟨ih1, ih2⟩ := ih
    by_cases hmp : mp = true ∧ 0 < beat
    · by_cases hneq : beat ≠ s.previousBeat
      · obtain ⟨hmp1, hmp2⟩ := hmp
        subst hmp1
        by_cases hgap : 50 ≤ now - s.lastTickTime
        · rw [tickStep_accept beat now bs s hmp2 hneq hgap]
          dsimp only
          constructor
          · have hfsub :=
              (jsSliceLast_sublist bs
                (s.latestNotes ++ [tickEvent now])).filter
                (fun e => !e.isTick)
            rw [List.filter_append] at hfsub
            have htk :
                (([tickEvent now] : List NoteHistoryItem).filter
                  (fun e => !e.isTick)) = [] := by
              simp [tickEvent]
            rw [htk, List.append_nil] at hfsub
            exact ih1.sublist hfsub
          · intro e he hef
            have hmem := (jsSliceLast_sublist bs _).subset he
            rw [List.mem_append, List.mem_singleton] at hmem
            rcases hmem with hm | rfl
            · exact ih2 e hm hef
            · simp [tickEvent] at hef
        · rw [tickStep_deduped beat now bs s hmp2 hneq hgap]
          exact ⟨ih1, ih2⟩
      · rw [tickStep_same_beat mp beat now bs s hmp hneq]
        exact ⟨ih1, ih2⟩
    · rw [tickStep_inactive mp beat now bs s hmp]
      exact ⟨ih1, ih2⟩
  | cleanup s tw now _ ih =>
    obtain ⟨ih1, ih2⟩ := ih
    unfold cleanupStep
    rw [cleanupNotes_eq_filter]
    dsimp only
    constructor
    · have hsub := List.filter_sublist
        (p := fun note => now - note.timestamp < tw * 1000) s.latestNotes
      exact ih1.sublist (hsub.filter (fun e => !e.isTick))
    · intro e he hef
      rw [List.mem_filter] at he
      exact ih2 e he.1 hef
  | clear s _ _ =>
    simp [clearHistory]

/-- C8: a pitch observation arriving less than 100 ms after the last
accepted one leaves the widget state unchanged; a tick marker on a new
beat is exempt from that pitch throttle and is appended whenever its own
50 ms dedupe window keyed off beat changes has passed, and dropped inside
that window; and in every reachable state the non-tick events of the
buffer have timestamps pairwise at least 100 ms apart. -/
theorem staff_throttle_and_separation (s : StaffState)
    (h : StaffReachable s) (f clarity : ℝ) (now : ℤ)
    (minClarity standartPitch : ℝ) (ns : NotationSystem)
    (acc : AccidentalSystem) (currentBeat tnow : ℤ) (bufferSize : ℕ) :
    (now - s.lastNoteTime < 100 →
      pitchStep (some f) clarity now minClarity standartPitch ns acc s
        = s) ∧
      (0 < currentBeat → currentBeat ≠ s.previousBeat →
        50 ≤ tnow - s.lastTickTime →
        (tickStep true currentBeat tnow bufferSize s).latestNotes =
          jsSliceLast bufferSize (s.latestNotes ++ [tickEvent tnow])) ∧
      (0 < currentBeat → currentBeat ≠ s.previousBeat →
        tnow - s.lastTickTime < 50 →
        (tickStep true currentBeat tnow bufferSize s).latestNotes =
          s.latestNotes) ∧
      (s.latestNotes.filter (fun e => !e.isTick)).Pairwise
        (fun a b => 100 ≤ |a.timestamp - b.timestamp|) := by
  refine ⟨?_, ?_, ?_, ?_⟩
  · intro hthr
    by_cases h50 : (50 : ℝ) < f
    · exact pitchStep_throttled f clarity now minClarity standartPitch ns
        acc s h50 hthr
    · exact pitchStep_not_high f clarity now minClarity standartPitch ns
        acc s h50
  · intro hbeat hneq hgap
    rw [tickStep_accept currentBeat tnow bufferSize s hbeat hneq hgap]
  · intro hbeat hneq hgap
    rw [tickStep_deduped currentBeat tnow bufferSize s hbeat hneq
      (by omega)]
  · have hinv := (staff_invariant s h).1
    refine hinv.imp ?_
    intro a b hab
    have habs := le_abs_self (b.timestamp - a.timestamp)
    rw [abs_sub_comm]
    omega

/-- Witness for C8 at the initial widget state. -/
theorem staff_throttle_and_separation_witness :
    ((50 : ℤ) - initialStaffState.lastNoteTime < 100 →
      pitchStep (some 440) 1 50 0.1 440 NotationSystem.ABC
        AccidentalSystem.sharp initialStaffState = initialStaffState) ∧
      ((0 : ℤ) < 1 → (1 : ℤ) ≠ initialStaffState.previousBeat →
        50 ≤ (100 : ℤ) - initialStaffState.lastTickTime →
        (tickStep true 1 100 100 initialStaffState).latestNotes =
          jsSliceLast 100 (initialStaffState.latestNotes ++
            [tickEvent 100])) ∧
      ((0 : ℤ) < 1 → (1 : ℤ) ≠ initialStaffState.previousBeat →
        (100 : ℤ) - initialStaffState.lastTickTime < 50 →
        (tickStep true 1 100 100 initialStaffState).latestNotes =
          initialStaffState.latestNotes) ∧
      (initialStaffState.latestNotes.filter
        (fun e => !e.isTick)).Pairwise
          (fun a b => 100 ≤ |a.timestamp - b.timestamp|) :=
  staff_throttle_and_separation initialStaffState StaffReachable.init
    440 1 50 0.1 440 NotationSystem.ABC AccidentalSystem.sharp 1 100 100


theorem stop_spec (s : HookState) :
    stop s =
      { isActive := false
        raf := none
        stream := none
        source := none
        audioContext :=
          match s.audioContext with
          | some st => if st ≠ .closed then none else some st
          | none => none
        analyser := none
        result := emptyHookResult } := by
  rcases s with ⟨ia, raf, stream, source, ctx, an, res⟩
  unfold stop
  cases raf <;> cases stream <;> cases source <;> cases ctx <;> simp
  all_goals (split <;> simp)

theorem hook_ctx_not_closed (s : HookState) (h : HookReachable s) :
    s.audioContext ≠ some AudioContextState.closed := by
  induction h with
  | init => simp [initHookState]
  | startSuccess s streamId sourceId analyserId rafId ctx _ _ hctx _ =>
    simpa using hctx
  | startNoop s _ _ ih => exact ih
  | startFailBeforeStream s _ ih => simpa using ih
  | startFailAfterStream s streamId _ _ ih => simpa using ih
  | startFailAfterContext s streamId ctx _ _ hctx _ => simpa using hctx
  | startFailAfterAnalyser s streamId analyserId ctx _ _ hctx _ =>
    simpa using hctx
  | startFailAfterSource s streamId analyserId sourceId ctx _ _ hctx _ =>
    simpa using hctx
  | frameRearm s rafId _ ih => simpa using ih
  | framePublish s r _ ih => simpa using ih
  | stopStep s _ ih =>
    rw [stop_spec]
    cases hc : s.audioContext with
    | none => simp
    | some st =>
      have hne : st ≠ AudioContextState.closed := by
        intro he
        exact ih (by rw [hc, he])
      simp [hne]

/-- C9: stopping is idempotent and, in every reachable hook state, a
single stop call already leaves the detection loop inactive with the
animation handle, media stream, audio source, analyser and audio context
all released to null. -/
theorem stop_idempotent_and_releases (s : HookState)
    (h : HookReachable s) :
    stop (stop s) = stop s ∧ (stop s).isActive = false ∧
      (stop s).raf = none ∧ (stop s).stream = none ∧
      (stop s).source = none ∧ (stop s).analyser = none ∧
      (stop s).audioContext = none := by
  have hctx := hook_ctx_not_closed s h
  have hctxn : (stop s).audioContext = none := by
    rw [stop_spec]
    cases hc : s.audioContext with
    | none => simp
    | some st =>
      have hne : st ≠ AudioContextState.closed := by
        intro he
        exact hctx (by rw [hc, he])
      simp [hne]
  refine ⟨?_, ?_, ?_, ?_, ?_, ?_, hctxn⟩
  · rw [stop_spec (stop s), hctxn]
    rw [stop_spec s]
    have := hctxn
    rw [stop_spec s] at this
    simp only [] at this
    rw [this]
  · rw [stop_spec]
  · rw [stop_spec]
  · rw [stop_spec]
  · rw [stop_spec]
  · rw [stop_spec]

/-- Witness for C9 at the initial hook state. -/
theorem stop_idempotent_and_releases_witness :
    stop (stop initHookState) = stop initHookState ∧
      (stop initHookState).isActive = false ∧
      (stop initHookState).raf = none ∧
      (stop initHookState).stream = none ∧
      (stop initHookState).source = none ∧
      (stop initHookState).analyser = none ∧
      (stop initHookState).audioContext = none :=
  stop_idempotent_and_releases initHookState HookReachable.init

end V1brate
